import Mathlib

/-!
Verification of the PlexCache tiered placement and move engine.

The Python sources (`file_operations.py`, the move-orchestration part of
`plexcache_app.py`) are embedded shallowly: paths are lists of characters,
the filesystem is an explicit list of existing file paths threaded through
the functions that mutate it, and the Python `str` / `os.path` primitives
used by the code are reproduced below with their CPython semantics.
-/

namespace PlexCache

/-- Paths and path fragments are plain character lists, mirroring Python
strings restricted to the string operations the sources use. -/
abbrev Str := List Char

/-- Python `s.startswith(p)`. -/
def pyStartsWith (s p : Str) : Bool := p.isPrefixOf s

/-- Python `s.endswith(p)` for a single suffix. -/
def pyEndsWith (s p : Str) : Bool := p.isSuffixOf s

/-- Index of the first occurrence of `pat` in `s`, if any (Python `str.find`
restricted to successful lookups). -/
def findSub (pat : Str) : Str → Option Nat
  | [] => if pat.isPrefixOf ([] : Str) then some 0 else none
  | c :: s => if pat.isPrefixOf (c :: s) then some 0 else (findSub pat s).map (· + 1)

/-- Python `pat in s` (substring containment). -/
def pyContains (s pat : Str) : Bool := (findSub pat s).isSome

/-- Python `s.replace(old, new, 1)`: replace the first occurrence only. -/
def pyReplaceOne (s old new : Str) : Str :=
  match findSub old s with
  | none => s
  | some i => s.take i ++ new ++ s.drop (i + old.length)

/-- Python `s.replace("", new)`: with an empty pattern the replacement is
inserted before every character and at the end. -/
def pyInterleave (new : Str) : Str → Str
  | [] => new
  | c :: s => new ++ c :: pyInterleave new s

/-- Worker for `pyReplaceAll` on a nonempty pattern.  The fuel argument only
bounds the number of steps; one character of `s` is consumed per step, so
fuel equal to the length of `s` is always sufficient. -/
def pyReplaceAllFuel (old new : Str) : Nat → Str → Str
  | _, [] => []
  | 0, s => s
  | fuel + 1, c :: s =>
    if old ≠ [] ∧ old.isPrefixOf (c :: s) then
      new ++ pyReplaceAllFuel old new fuel (s.drop (old.length - 1))
    else
      c :: pyReplaceAllFuel old new fuel s

/-- Python `s.replace(old, new)` with no count: every (non-overlapping,
leftmost-first) occurrence is replaced. -/
def pyReplaceAll (s old new : Str) : Str :=
  if old = [] then pyInterleave new s else pyReplaceAllFuel old new s.length s

/-- Index of the last occurrence of character `c`, if any (Python `str.rfind`
for a single character). -/
def rfindIdx (c : Char) : Str → Option Nat
  | [] => none
  | x :: s =>
    match rfindIdx c s with
    | some i => some (i + 1)
    | none => if x = c then some 0 else none

/-- Python `s.rstrip("/")`. -/
def rstripSlash (p : Str) : Str := (p.reverse.dropWhile (fun ch => ch = '/')).reverse

/-- CPython `posixpath.dirname`: everything up to the last slash, with the
trailing slashes stripped unless the head consists only of slashes. -/
def dirname (p : Str) : Str :=
  match rfindIdx '/' p with
  | none => []
  | some i =>
    let head := p.take (i + 1)
    if head.all (fun ch => ch = '/') then head else rstripSlash head

/-- CPython `posixpath.basename`: everything after the last slash. -/
def basename (p : Str) : Str :=
  match rfindIdx '/' p with
  | none => p
  | some i => p.drop (i + 1)

/-- CPython `posixpath.join` on two arguments. -/
def joinPath (a b : Str) : Str :=
  if pyStartsWith b ("/").data then b
  else if a = [] ∨ pyEndsWith a ("/").data then a ++ b
  else a ++ '/' :: b

/-- CPython `posixpath.splitext`: split off the extension at the last dot of
the final component, unless every character of the component before that dot
is itself a dot. -/
def splitext (p : Str) : Str × Str :=
  match rfindIdx '.' p with
  | none => (p, [])
  | some d =>
    let s : Nat := match rfindIdx '/' p with | none => 0 | some i => i + 1
    if s ≤ d then
      if ((p.drop s).take (d - s)).any (fun ch => ch ≠ '.') then (p.take d, p.drop d)
      else (p, [])
    else (p, [])

/-- Raw split of a path on slashes (Python `p.split("/")`), written with an
accumulator for the component being read. -/
def splitOnSlashAux (cur : Str) : Str → List Str
  | [] => [cur.reverse]
  | c :: s => if c = '/' then cur.reverse :: splitOnSlashAux [] s else splitOnSlashAux (c :: cur) s

/-- Component normalisation of CPython `posixpath.normpath` for absolute
paths: empty and `.` components are dropped, and `..` pops the previous
component (or is dropped at the root).  All paths handed to `relpath` by the
sources are absolute, so the accumulator never retains a `..`. -/
def normCompsAux : List Str → List Str → List Str
  | acc, [] => acc.reverse
  | acc, comp :: rest =>
    if comp = [] ∨ comp = (".").data then normCompsAux acc rest
    else if comp = ("..").data then
      match acc with
      | [] => normCompsAux [] rest
      | a :: acc' =>
        if a = ("..").data then normCompsAux (comp :: a :: acc') rest
        else normCompsAux acc' rest
    else normCompsAux (comp :: acc) rest

/-- Normalised component list of an absolute path, as computed inside
CPython `posixpath.relpath` via `abspath(p).split(sep)` with empties
filtered. -/
def absComps (p : Str) : List Str := normCompsAux [] (splitOnSlashAux [] p)

/-- Length of the longest common prefix of two component lists (CPython
`os.path.commonprefix` on lists, measured). -/
def commonPrefixLen : List Str → List Str → Nat
  | a :: as, b :: bs => if a = b then commonPrefixLen as bs + 1 else 0
  | _, _ => 0

/-- CPython `posixpath.join(*parts)` over a nonempty component list. -/
def joinList : List Str → Str
  | [] => []
  | x :: xs => xs.foldl joinPath x

/-- CPython `posixpath.relpath(path, start)` for absolute `path` and
`start`. -/
def relpath (path start : Str) : Str :=
  let sl := absComps start
  let pl := absComps path
  let i := commonPrefixLen sl pl
  let rel := List.replicate (sl.length - i) ("..").data ++ pl.drop i
  if rel = [] then (".").data else joinList rel

/-! ## FilePathModifier (`file_operations.py`, lines 12-50) -/

/-- Configuration of `FilePathModifier.__init__`. -/
structure FilePathModifier where
  plex_source : Str
  real_source : Str
  plex_library_folders : List Str
  nas_library_folders : List Str
deriving DecidableEq, Repr

/-- Inner loop of `modify_file_paths`: scan the positionally paired library
folders in order and, on the first folder contained in the path, apply
Python `file_path.replace(folder, nas_folder)` (all occurrences, no count
argument in the source) and stop. -/
def folderLoop : List (Str × Str) → Str → Str
  | [], fp => fp
  | (pf, nf) :: rest, fp =>
    if pyContains fp pf then pyReplaceAll fp pf nf else folderLoop rest fp

/-- Body of the `for i, file_path in enumerate(files)` loop of
`modify_file_paths` for one path: replace `plex_source` by `real_source`
(count 1) and then run the library-folder loop. -/
def modifyOnePath (m : FilePathModifier) (fp : Str) : Str :=
  folderLoop (m.plex_library_folders.zip m.nas_library_folders)
    (pyReplaceOne fp m.plex_source m.real_source)

/-- The enumerate loop rewrites each slot of the filtered list in place from
its own previous value; sequential recursion over the list. -/
def editLoop (m : FilePathModifier) : List Str → List Str
  | [] => []
  | fp :: rest => modifyOnePath m fp :: editLoop m rest

/-- `FilePathModifier.modify_file_paths`: `None` yields `[]`; otherwise the
paths starting with `plex_source` are kept and each is rewritten. -/
def modify_file_paths (m : FilePathModifier) (files : Option (List Str)) : List Str :=
  match files with
  | none => []
  | some fs => editLoop m (fs.filter (fun p => pyStartsWith p m.plex_source))

/-! ## SubtitleFinder (`file_operations.py`, lines 53-101) -/

/-- One `os.scandir` result: its bare name and whether it is a regular
file. Its `path` attribute is the directory joined with the name. -/
structure DirEntry where
  name : Str
  is_file : Bool
deriving DecidableEq, Repr

/-- Configuration of `SubtitleFinder.__init__` after the default has been
filled in. -/
structure SubtitleFinder where
  subtitle_extensions : List Str
deriving DecidableEq, Repr

/-- The default subtitle extension set. -/
def defaultSubtitleExtensions : List Str :=
  [(".srt").data, (".vtt").data, (".sbv").data, (".sub").data, (".idx").data]

/-- Selection predicate of the comprehension inside
`SubtitleFinder._find_subtitle_files`: the entry is a regular file, its name
starts with the media file's base name with the extension stripped, its name
differs from the `file` argument (the full media path, as passed by
`get_media_subtitles`), and its name ends with one of the configured
extensions. -/
def entrySelected (sf : SubtitleFinder) (file : Str) (e : DirEntry) : Bool :=
  e.is_file && pyStartsWith e.name (splitext (basename file)).1 &&
    !(e.name == file) && sf.subtitle_extensions.any (fun ext => pyEndsWith e.name ext)

/-- `SubtitleFinder._find_subtitle_files` on a directory whose scan returned
`entries` in order: the paths of the selected entries. -/
def find_subtitle_files (sf : SubtitleFinder) (directory_path : Str)
    (entries : List DirEntry) (file : Str) : List Str :=
  (entries.filter (entrySelected sf file)).map (fun e => joinPath directory_path e.name)

/-! ## The filesystem model

The only file-level observations the sources make are `os.path.isfile` and
`os.remove`; the state is the list of existing regular file paths. -/

/-- Set of existing regular files. -/
abbrev FS := List Str

/-- `os.path.isfile`. -/
def isfile (fs : FS) (p : Str) : Bool := fs.contains p

/-- `os.remove` (only ever called by the sources after an `isfile` check). -/
def removeFile (fs : FS) (p : Str) : FS := fs.filter (fun q => q ≠ p)

/-! ## FileFilter (`file_operations.py`, lines 104-189) -/

/-- Configuration of `FileFilter.__init__`; the exclusion file path itself is
irrelevant to the properties here, its written contents are in the result. -/
structure FileFilter where
  real_source : Str
  cache_dir : Str
  is_unraid : Bool
deriving DecidableEq, Repr

/-- `FileFilter._get_cache_paths`: substitute `cache_dir` for the first
occurrence of `real_source` in the dirname and rejoin the base name. -/
def get_cache_paths (c : FileFilter) (file : Str) : Str × Str :=
  let cache_path := pyReplaceOne (dirname file) c.real_source c.cache_dir
  (cache_path, joinPath cache_path (basename file))

/-- The `array_file` computed by both `_should_add_to_array` and
`_should_add_to_cache`: on unraid, `/mnt/user/` is rewritten to
`/mnt/user0/` (first occurrence). -/
def arrayPathOf (is_unraid : Bool) (file : Str) : Str :=
  if is_unraid then pyReplaceOne file ("/mnt/user/").data ("/mnt/user0/").data else file

/-- `FileFilter._should_add_to_array`, with the `os.remove` side effect made
explicit in the returned filesystem. -/
def should_add_to_array (c : FileFilter) (file cache_file_name : Str)
    (media_to_cache : List Str) (fs : FS) : Bool × FS :=
  if file ∈ media_to_cache then (false, fs)
  else
    let array_file := arrayPathOf c.is_unraid file
    if isfile fs array_file then
      if isfile fs cache_file_name then (false, removeFile fs cache_file_name)
      else (false, fs)
    else (true, fs)

/-- `FileFilter._should_add_to_cache`, with the `os.remove` side effect made
explicit in the returned filesystem. -/
def should_add_to_cache (c : FileFilter) (file cache_file_name : Str) (fs : FS) : Bool × FS :=
  let array_file := arrayPathOf c.is_unraid file
  if isfile fs cache_file_name && isfile fs array_file then (false, removeFile fs array_file)
  else (!isfile fs cache_file_name, fs)

/-- Mutable state of the `for file in files` loop of
`FileFilter.filter_files`. -/
structure FilterState where
  processed : List Str
  media_to : List Str
  cache_files_to_exclude : List Str
  fs : FS
deriving DecidableEq, Repr

/-- One iteration of the `filter_files` loop. -/
def filterStep (c : FileFilter) (destination : Str) (media_to_cache files_to_skip : List Str)
    (st : FilterState) (file : Str) : FilterState :=
  if file ∈ st.processed ∨ (files_to_skip ≠ [] ∧ file ∈ files_to_skip) then st
  else
    let cache_file_name := (get_cache_paths c file).2
    let st := { st with processed := file :: st.processed,
                        cache_files_to_exclude := st.cache_files_to_exclude ++ [cache_file_name] }
    if destination = ("array").data then
      let r := should_add_to_array c file cache_file_name media_to_cache st.fs
      { st with fs := r.2, media_to := if r.1 then st.media_to ++ [file] else st.media_to }
    else if destination = ("cache").data then
      let r := should_add_to_cache c file cache_file_name st.fs
      { st with fs := r.2, media_to := if r.1 then st.media_to ++ [file] else st.media_to }
    else st

/-- Result of `FileFilter.filter_files`.  `exclude_artifact = some lines`
records that the mover-exclusion file was opened with mode `"w"` (truncated)
and overwritten with exactly those lines; `none` records that it was not
touched. -/
structure FilterResult where
  media_to : List Str
  fs : FS
  exclude_artifact : Option (List Str)
deriving DecidableEq, Repr

/-- `FileFilter.filter_files`.  `media_to_cache` and `files_to_skip` stand
for the already-defaulted arguments (`None` becomes empty).  An empty `files`
returns before the unraid write, exactly as in the source. -/
def filter_files (c : FileFilter) (files : List Str) (destination : Str)
    (media_to_cache files_to_skip : List Str) (fs : FS) : FilterResult :=
  if files = [] then ⟨[], fs, none⟩
  else
    let st := files.foldl (filterStep c destination media_to_cache files_to_skip) ⟨[], [], [], fs⟩
    ⟨st.media_to, st.fs, if c.is_unraid then some st.cache_files_to_exclude else none⟩

/-! ## FileMover (`file_operations.py`, lines 192-293) -/

/-- Configuration of `FileMover.__init__` (the `file_utils` collaborator is
modelled by the functions below). -/
structure FileMover where
  real_source : Str
  cache_dir : Str
  is_unraid : Bool
  debug : Bool
deriving DecidableEq, Repr

/-- `FileMover._get_paths`: `(user_path, cache_path, cache_file_name,
user_file_name)` for one file. -/
def get_paths (mv : FileMover) (file_to_move : Str) : Str × Str × Str × Str :=
  let user_path := dirname file_to_move
  let relative_path := relpath user_path mv.real_source
  let cache_path := joinPath mv.cache_dir relative_path
  let cache_file_name := joinPath cache_path (basename file_to_move)
  let user_path' :=
    if mv.is_unraid then pyReplaceOne user_path ("/mnt/user/").data ("/mnt/user0/").data
    else user_path
  let user_file_name := joinPath user_path' (basename file_to_move)
  (user_path', cache_path, cache_file_name, user_file_name)

/-- Modelled from the spec: `FileUtils.create_directory_with_permissions`
(module `system_utils`, which is not among the sources here) ensures the
destination directory exists, copying permission bits from a reference path.
We track its observable effect on the set of existing directories: the
directory is added when absent.  The reference argument does not affect
which directory exists. -/
def create_directory_with_permissions (dirs : List Str) (path reference : Str) : List Str :=
  if dirs.contains path then dirs else dirs ++ [path]

/-- Directory-and-filesystem state threaded through a `move_media_files`
call: `fs` is the set of regular files, `dirs` the set of directories
created so far (directories are never `isfile`, so the two sets are
disjoint observations). -/
structure MoverState where
  fs : FS
  dirs : List Str
deriving DecidableEq, Repr

/-- `FileMover._get_move_command`, with the directory-creation side effect
made explicit. -/
def get_move_command (mv : FileMover) (st : MoverState) (destination : Str)
    (cache_file_name user_path user_file_name cache_path : Str) :
    Option (Str × Str) × MoverState :=
  if destination = ("array").data then
    let dirs := create_directory_with_permissions st.dirs user_path cache_file_name
    (if isfile st.fs cache_file_name then some (cache_file_name, user_path) else none,
      { st with dirs := dirs })
  else if destination = ("cache").data then
    let dirs := create_directory_with_permissions st.dirs cache_path user_file_name
    (if !isfile st.fs cache_file_name then some (user_file_name, cache_path) else none,
      { st with dirs := dirs })
  else (none, st)

/-- The pure value of the move command `_get_move_command` produces for one
file against a fixed filesystem (its decision reads only `fs`). -/
def moveCommandOf (mv : FileMover) (fs : FS) (destination file_to_move : Str) :
    Option (Str × Str) :=
  let p := get_paths mv file_to_move
  if destination = ("array").data then
    if isfile fs p.2.2.1 then some (p.2.2.1, p.1) else none
  else if destination = ("cache").data then
    if !isfile fs p.2.2.1 then some (p.2.2.2, p.2.1) else none
  else none

/-- The `for file_to_move in files` loop of `FileMover.move_media_files`:
dedicate each file once (via the `processed_files` set), compute its paths,
ask `_get_move_command`, and collect the commands in order. -/
def moveLoop (mv : FileMover) (destination : Str) :
    List Str → List Str → MoverState → List (Str × Str) × MoverState
  | [], _, st => ([], st)
  | f :: rest, processed, st =>
    if f ∈ processed then moveLoop mv destination rest processed st
    else
      let p := get_paths mv f
      let r := get_move_command mv st destination p.2.2.1 p.1 p.2.2.2 p.2.1
      let rec' := moveLoop mv destination rest (f :: processed) r.2
      (match r.1 with
       | some m => m :: rec'.1
       | none => rec'.1, rec'.2)

/-- Modelled from the spec: `FileUtils.move_file` (module `system_utils`,
absent from the sources here) moves `src` into the directory `dest`
preserving metadata.  Observable effect: an existing `src` disappears and
`dest/basename(src)` appears; a missing source raises, which
`FileMover._move_file` catches and converts into result `1`. -/
def move_file_model (fs : FS) (src dest : Str) : FS × Nat :=
  if isfile fs src then (removeFile fs src ++ [joinPath dest (basename src)], 0)
  else (fs, 1)

/-- Outcome of `FileMover._execute_move_commands`. -/
structure ExecOutcome where
  printed : List (Str × Str)
  fs : FS
  errors : Nat
deriving DecidableEq, Repr

/-- `FileMover._execute_move_commands`: in debug mode the commands are only
printed and logged and nothing runs (so no failure is ever counted); in
normal mode each command is attempted and the per-file results are summed.
The worker pool only bounds parallelism, so the aggregate state is the
sequential fold over the independent per-file moves. -/
def execute_move_commands (mv : FileMover) (fs : FS)
    (move_commands : List (Str × Str)) : ExecOutcome :=
  if mv.debug then ⟨move_commands, fs, 0⟩
  else
    let r := move_commands.foldl
      (fun (acc : FS × Nat) cmd =>
        let m := move_file_model acc.1 cmd.1 cmd.2
        (m.1, acc.2 + m.2)) (fs, 0)
    ⟨[], r.1, r.2⟩

/-- Full result of `FileMover.move_media_files`. -/
structure MoveResult where
  move_commands : List (Str × Str)
  dirs : List Str
  printed : List (Str × Str)
  fs : FS
  errors : Nat
deriving DecidableEq, Repr

/-- `FileMover.move_media_files`: collect the commands (with their
directory-creation side effects), then execute them.  The two concurrency
bounds select the worker-pool size only and do not change the aggregate
outcome. -/
def move_media_files (mv : FileMover) (files : List Str) (destination : Str)
    (max_concurrent_moves_array max_concurrent_moves_cache : Nat)
    (fs : FS) (dirs : List Str) : MoveResult :=
  let r := moveLoop mv destination files [] ⟨fs, dirs⟩
  let out := execute_move_commands mv r.2.fs r.1
  ⟨r.1, r.2.dirs, out.printed, out.fs, out.errors⟩

/-! ## Capacity gate (`plexcache_app.py`, lines 381-428) -/

/-- Modelled from the spec: `FileUtils.get_total_size_of_files` (module
`system_utils`, absent from the sources here) sums the on-disk size of every
file of the batch, skipping files that vanished.  Sizes are kept in exact
bytes, abstracting the source's human-readable unit conversion (both sides
of the source's comparison go through the same conversion). -/
def get_total_size_of_files (fs : FS) (size : Str → Nat) (files : List Str) : Nat :=
  (files.filter (isfile fs)).foldl (fun acc f => acc + size f) 0

/-- Control-flow outcome of `PlexCacheApp._check_free_space_and_move_files`:
either the zero-size early exit, the `sys.exit` on insufficient space, or a
completed call of `move_media_files` (with `warned` recording that the
insufficient-space branch printed its error first). -/
inductive BatchOutcome where
  | nothingToMove
  | exitNoSpace
  | moved (warned : Bool) (result : MoveResult)
deriving DecidableEq, Repr

/-- `PlexCacheApp._check_free_space_and_move_files`.  `debug` is the
application's debug flag (the same value the application passed to the
`FileMover` it constructed); `free_space_bytes` is the free space of the
destination tier (modelled from the spec: `FileUtils.get_free_space` is in
the absent `system_utils` module). -/
def check_free_space_and_move_files (c : FileFilter) (mv : FileMover) (debug : Bool)
    (size : Str → Nat) (free_space_bytes : Nat)
    (media_files : List Str) (destination : Str) (media_to_cache files_to_skip : List Str)
    (maxArr maxCache : Nat) (fs : FS) (dirs : List Str) : BatchOutcome :=
  let res := filter_files c media_files destination media_to_cache files_to_skip fs
  let total := get_total_size_of_files res.fs size res.media_to
  if 0 < total then
    if free_space_bytes < total then
      if !debug then BatchOutcome.exitNoSpace
      else BatchOutcome.moved true
        (move_media_files mv res.media_to destination maxArr maxCache res.fs dirs)
    else BatchOutcome.moved false
      (move_media_files mv res.media_to destination maxArr maxCache res.fs dirs)
  else BatchOutcome.nothingToMove

/-! ## Spec-reading of the fragment substitution (for claim C7)

The claim reads the library-folder substitution as first-occurrence-only;
these definitions follow that wording, to be compared against the source's
`folderLoop` / `modifyOnePath`. -/

/-- The library-folder loop as claim C7 words it: the first matching
fragment is replaced at its first occurrence only. -/
def folderLoopSpec : List (Str × Str) → Str → Str
  | [], fp => fp
  | (pf, nf) :: rest, fp =>
    if pyContains fp pf then pyReplaceOne fp pf nf else folderLoopSpec rest fp

/-- Per-path rewriting as claim C7 words it. -/
def modifyOnePathSpec (m : FilePathModifier) (fp : Str) : Str :=
  folderLoopSpec (m.plex_library_folders.zip m.nas_library_folders)
    (pyReplaceOne fp m.plex_source m.real_source)

/-! ## Theorems -/

/-- The enumerate loop of `modify_file_paths` rewrites each retained slot
from its own value, so it is a map. -/
theorem editLoop_eq_map (m : FilePathModifier) (l : List Str) :
    editLoop m l = l.map (modifyOnePath m) := by
  induction l with
  | nil => rfl
  | cons fp rest ih => simp [editLoop, ih]

/-- C6: `FilePathModifier.modify_file_paths` drops exactly the input paths
that do not begin with the configured `plex_source` prefix, rewrites the
retained paths in their original relative order, and is total with an empty
output for an empty (or absent) input — it never returns an absent value. -/
theorem modify_file_paths_filters_translates_in_order (m : FilePathModifier)
    (files : Option (List Str)) :
    modify_file_paths m files =
      ((files.getD []).filter (fun p => pyStartsWith p m.plex_source)).map
        (modifyOnePath m) := by
  cases files with
  | none => rfl
  | some fs => simp [modify_file_paths, editLoop_eq_map]

/-- C7, counterexample: on the path `/media/tv/tv/a.mkv` with fragment pair
`tv → shows`, the source replaces every occurrence of the matched fragment
(`str.replace` with no count), producing `/real/shows/shows/a.mkv`, while
the claim's first-occurrence-only reading predicts `/real/shows/tv/a.mkv`. -/
theorem modify_file_paths_replaces_all_occurrences_counterexample :
    modify_file_paths
        ⟨("/media").data, ("/real").data, [("tv").data], [("shows").data]⟩
        (some [("/media/tv/tv/a.mkv").data]) = [("/real/shows/shows/a.mkv").data] ∧
      modifyOnePathSpec
        ⟨("/media").data, ("/real").data, [("tv").data], [("shows").data]⟩
        (("/media/tv/tv/a.mkv").data) = ("/real/shows/tv/a.mkv").data := by
  constructor <;> decide

/-- C7 amended: for every retained path, the logical source prefix is
replaced by the physical one at its first occurrence only; then, scanning
the fragment pairs in order, exactly the first matching fragment is
substituted — but this substitution replaces every occurrence of that
fragment, not only the first. -/
theorem modifyOnePath_first_match_replaces_all (m : FilePathModifier)
    (ps₁ ps₂ : List (Str × Str)) (pf nf : Str) (fp : Str)
    (hzip : m.plex_library_folders.zip m.nas_library_folders = ps₁ ++ (pf, nf) :: ps₂)
    (hnone : ∀ q ∈ ps₁, pyContains (pyReplaceOne fp m.plex_source m.real_source) q.1 = false)
    (hmatch : pyContains (pyReplaceOne fp m.plex_source m.real_source) pf = true) :
    modifyOnePath m fp =
      pyReplaceAll (pyReplaceOne fp m.plex_source m.real_source) pf nf := by
  unfold modifyOnePath
  rw [hzip]
  clear hzip
  induction ps₁ with
  | nil => simp [folderLoop, hmatch]
  | cons q rest ih =>
    obtain ⟨qa, qb⟩ := q
    have hq : pyContains (pyReplaceOne fp m.plex_source m.real_source) qa = false :=
      hnone (qa, qb) (by simp)
    simp only [List.cons_append, folderLoop, hq, Bool.false_eq_true, if_false]
    exact ih (fun q hq2 => hnone q (by simp [hq2]))

/-- C7 amended, witness: with fragment pairs `x → y` then `tv → shows` and
the path `/media/tv/tv/a.mkv`, the first pair does not match, the second
does, and the source's result is the replace-all of the second pair. -/
theorem modifyOnePath_first_match_replaces_all_witness :
    modifyOnePath
        ⟨("/media").data, ("/real").data, [("x").data, ("tv").data],
          [("y").data, ("shows").data]⟩ (("/media/tv/tv/a.mkv").data) =
      pyReplaceAll
        (pyReplaceOne (("/media/tv/tv/a.mkv").data) (("/media").data) (("/real").data))
        (("tv").data) (("shows").data) :=
  modifyOnePath_first_match_replaces_all
    ⟨("/media").data, ("/real").data, [("x").data, ("tv").data],
      [("y").data, ("shows").data]⟩
    [((("x").data : Str), (("y").data : Str))] [] (("tv").data) (("shows").data)
    (("/media/tv/tv/a.mkv").data) (by decide) (by decide) (by decide)

/-- C8: the self-exclusion check of `_find_subtitle_files` compares the
entry's bare name against the full media path, so it never excludes
anything once the media path contains a directory component; a media file
whose own extension is a subtitle extension is returned as its own
companion.  Here `/d/video.srt` is listed as a companion of itself. -/
theorem find_subtitle_files_returns_media_file_itself :
    find_subtitle_files ⟨defaultSubtitleExtensions⟩ (("/d").data)
        [⟨("video.srt").data, true⟩] (("/d/video.srt").data) =
      [("/d/video.srt").data] := by
  decide

/-- C1, counterexample: destination `array`, the file is in
`media_to_cache`, and both the array copy (`/real/m/a.mkv`, non-unraid) and
the cache copy (`/cache/m/a.mkv`) exist.  `_should_add_to_array` returns
before any existence check, so after the decision pass both copies still
exist, contradicting the claimed unconditional redundant-copy deletion
(the file does contribute zero move entries). -/
theorem filter_files_both_copies_persist_counterexample :
    (filter_files ⟨("/real").data, ("/cache").data, false⟩
        [("/real/m/a.mkv").data] (("array").data) [("/real/m/a.mkv").data] []
        [("/real/m/a.mkv").data, ("/cache/m/a.mkv").data]).fs =
      [("/real/m/a.mkv").data, ("/cache/m/a.mkv").data] ∧
    (filter_files ⟨("/real").data, ("/cache").data, false⟩
        [("/real/m/a.mkv").data] (("array").data) [("/real/m/a.mkv").data] []
        [("/real/m/a.mkv").data, ("/cache/m/a.mkv").data]).media_to = [] := by
  constructor <;> decide

/-- C1 amended: when both the array copy and the cache copy of a file are
detected, the redundant copy is deleted immediately and the file is excluded
from the batch — when deciding for `cache` unconditionally, and when
deciding for `array` only if the file is not in `alreadyDestinedForCache`;
in that excepted case the file is excluded without any existence check and
both copies remain. -/
theorem redundant_copy_deletion_except_destined_for_cache
    (c : FileFilter) (file cache_file_name : Str) (media_to_cache : List Str) (fs : FS)
    (ha : isfile fs (arrayPathOf c.is_unraid file) = true)
    (hc : isfile fs cache_file_name = true) :
    (file ∉ media_to_cache →
      should_add_to_array c file cache_file_name media_to_cache fs =
        (false, removeFile fs cache_file_name)) ∧
    (file ∈ media_to_cache →
      should_add_to_array c file cache_file_name media_to_cache fs = (false, fs)) ∧
    should_add_to_cache c file cache_file_name fs =
      (false, removeFile fs (arrayPathOf c.is_unraid file)) := by
  refine ⟨fun hnm => ?_, fun hm => ?_, ?_⟩ <;>
    simp [should_add_to_array, should_add_to_cache, ha, hc, *]

/-- C1 amended, witness: concrete non-unraid state with both copies present
and an empty `alreadyDestinedForCache`. -/
theorem redundant_copy_deletion_except_destined_for_cache_witness :
    ((("/real/m/a.mkv").data : Str) ∉ ([] : List Str) →
      should_add_to_array ⟨("/real").data, ("/cache").data, false⟩
          (("/real/m/a.mkv").data) (("/cache/m/a.mkv").data) []
          [("/real/m/a.mkv").data, ("/cache/m/a.mkv").data] =
        (false, removeFile [("/real/m/a.mkv").data, ("/cache/m/a.mkv").data]
          (("/cache/m/a.mkv").data))) ∧
    ((("/real/m/a.mkv").data : Str) ∈ ([] : List Str) →
      should_add_to_array ⟨("/real").data, ("/cache").data, false⟩
          (("/real/m/a.mkv").data) (("/cache/m/a.mkv").data) []
          [("/real/m/a.mkv").data, ("/cache/m/a.mkv").data] =
        (false, [("/real/m/a.mkv").data, ("/cache/m/a.mkv").data])) ∧
    should_add_to_cache ⟨("/real").data, ("/cache").data, false⟩
        (("/real/m/a.mkv").data) (("/cache/m/a.mkv").data)
        [("/real/m/a.mkv").data, ("/cache/m/a.mkv").data] =
      (false, removeFile [("/real/m/a.mkv").data, ("/cache/m/a.mkv").data]
        (arrayPathOf false (("/real/m/a.mkv").data))) :=
  redundant_copy_deletion_except_destined_for_cache
    ⟨("/real").data, ("/cache").data, false⟩ (("/real/m/a.mkv").data)
    (("/cache/m/a.mkv").data) [] [("/real/m/a.mkv").data, ("/cache/m/a.mkv").data]
    (by decide) (by decide)

/-- A `filter_files` pass for an unknown destination changes neither the
selection nor the filesystem: the per-file branch dispatch falls through. -/
theorem filterFoldl_unknown_destination (c : FileFilter) (destination : Str)
    (media_to_cache files_to_skip : List Str)
    (h1 : destination ≠ ("array").data) (h2 : destination ≠ ("cache").data) :
    ∀ (files : List Str) (st : FilterState),
      (List.foldl (filterStep c destination media_to_cache files_to_skip) st files).media_to =
          st.media_to ∧
        (List.foldl (filterStep c destination media_to_cache files_to_skip) st files).fs =
          st.fs := by
  intro files
  induction files with
  | nil => intro st; exact ⟨rfl, rfl⟩
  | cons f rest ih =>
    intro st
    simp only [List.foldl_cons]
    have hstep : ((filterStep c destination media_to_cache files_to_skip st f).media_to =
        st.media_to) ∧
        (filterStep c destination media_to_cache files_to_skip st f).fs = st.fs := by
      unfold filterStep
      split
      · exact ⟨rfl, rfl⟩
      · simp [h1, h2]
    obtain ⟨h3, h4⟩ := ih (filterStep c destination media_to_cache files_to_skip st f)
    exact ⟨h3.trans hstep.1, h4.trans hstep.2⟩

/-- `_get_move_command` for an unknown destination produces no command and
leaves the state alone, so the whole collection loop does nothing. -/
theorem moveLoop_unknown_destination (mv : FileMover) (destination : Str)
    (h1 : destination ≠ ("array").data) (h2 : destination ≠ ("cache").data) :
    ∀ (files processed : List Str) (st : MoverState),
      moveLoop mv destination files processed st = ([], st) := by
  intro files
  induction files with
  | nil => intro processed st; rfl
  | cons f rest ih =>
    intro processed st
    unfold moveLoop
    split
    · exact ih processed st
    · simp [get_move_command, h1, h2, ih]

/-- Executing an empty command list touches nothing and reports zero errors,
in debug and in normal mode alike. -/
theorem execute_move_commands_nil (mv : FileMover) (fs : FS) :
    execute_move_commands mv fs [] = ⟨[], fs, 0⟩ := by
  unfold execute_move_commands
  split <;> rfl

/-- C3 amended: a destination outside `{array, cache}` is not treated as a
fatal error; both `filter_files` and `move_media_files` silently return a
normal, empty result (no file selected, no command emitted, no error
counted, the filesystem untouched). -/
theorem unknown_destination_returns_normally
    (c : FileFilter) (mv : FileMover) (files media_to_cache files_to_skip : List Str)
    (destination : Str) (fs : FS) (dirs : List Str) (ma mc : Nat)
    (h1 : destination ≠ ("array").data) (h2 : destination ≠ ("cache").data) :
    (filter_files c files destination media_to_cache files_to_skip fs).media_to = [] ∧
    (filter_files c files destination media_to_cache files_to_skip fs).fs = fs ∧
    (move_media_files mv files destination ma mc fs dirs).move_commands = [] ∧
    (move_media_files mv files destination ma mc fs dirs).errors = 0 ∧
    (move_media_files mv files destination ma mc fs dirs).fs = fs := by
  have hmv := moveLoop_unknown_destination mv destination h1 h2 files [] ⟨fs, dirs⟩
  refine ⟨?_, ?_, ?_, ?_, ?_⟩
  · unfold filter_files
    split
    · rfl
    · exact (filterFoldl_unknown_destination c destination media_to_cache files_to_skip
        h1 h2 files ⟨[], [], [], fs⟩).1
  · unfold filter_files
    split
    · rfl
    · exact (filterFoldl_unknown_destination c destination media_to_cache files_to_skip
        h1 h2 files ⟨[], [], [], fs⟩).2
  · simp [move_media_files, hmv]
  · simp [move_media_files, hmv, execute_move_commands_nil]
  · simp [move_media_files, hmv, execute_move_commands_nil]

/-- C3 amended, witness: destination `"foo"` on a one-file batch. -/
theorem unknown_destination_returns_normally_witness :
    (filter_files ⟨("/real").data, ("/cache").data, false⟩ [("/real/m/a.mkv").data]
        (("foo").data) [] [] [("/real/m/a.mkv").data]).media_to = [] ∧
    (filter_files ⟨("/real").data, ("/cache").data, false⟩ [("/real/m/a.mkv").data]
        (("foo").data) [] [] [("/real/m/a.mkv").data]).fs = [("/real/m/a.mkv").data] ∧
    (move_media_files ⟨("/real").data, ("/cache").data, false, false⟩
        [("/real/m/a.mkv").data] (("foo").data) 2 2 [("/real/m/a.mkv").data]
        []).move_commands = [] ∧
    (move_media_files ⟨("/real").data, ("/cache").data, false, false⟩
        [("/real/m/a.mkv").data] (("foo").data) 2 2 [("/real/m/a.mkv").data]
        []).errors = 0 ∧
    (move_media_files ⟨("/real").data, ("/cache").data, false, false⟩
        [("/real/m/a.mkv").data] (("foo").data) 2 2 [("/real/m/a.mkv").data]
        []).fs = [("/real/m/a.mkv").data] :=
  unknown_destination_returns_normally
    ⟨("/real").data, ("/cache").data, false⟩
    ⟨("/real").data, ("/cache").data, false, false⟩
    [("/real/m/a.mkv").data] [] [] (("foo").data) [("/real/m/a.mkv").data] [] 2 2
    (by decide) (by decide)

/-- C3, counterexample: a concrete call with destination `"foo"` returns a
plain empty result from both stages — no exception, no error report. -/
theorem unknown_destination_silent_counterexample :
    filter_files ⟨("/real").data, ("/cache").data, false⟩ [("/real/m/a.mkv").data]
        (("foo").data) [] [] [("/real/m/a.mkv").data] =
      ⟨[], [("/real/m/a.mkv").data], none⟩ ∧
    move_media_files ⟨("/real").data, ("/cache").data, false, false⟩
        [("/real/m/a.mkv").data] (("foo").data) 2 2 [("/real/m/a.mkv").data] [] =
      ⟨[], [], [], [("/real/m/a.mkv").data], 0⟩ := by
  constructor <;> decide

/-- `_get_move_command` never changes the set of regular files, only the set
of directories. -/
theorem get_move_command_fs (mv : FileMover) (st : MoverState) (destination : Str)
    (a b c d : Str) : (get_move_command mv st destination a b c d).2.fs = st.fs := by
  unfold get_move_command
  split
  · rfl
  · split <;> rfl

/-- The command-collection loop of `move_media_files` never changes the set
of regular files. -/
theorem moveLoop_fs (mv : FileMover) (destination : Str) :
    ∀ (files processed : List Str) (st : MoverState),
      (moveLoop mv destination files processed st).2.fs = st.fs := by
  intro files
  induction files with
  | nil => intro processed st; rfl
  | cons f rest ih =>
    intro processed st
    unfold moveLoop
    split
    · exact ih processed st
    · simp only
      exact (ih (f :: processed) _).trans (get_move_command_fs mv st destination _ _ _ _)

/-- C2, counterexample: in debug mode, deciding a cache-bound file still
runs the directory-ensure of `_get_move_command`, so the destination
directory `/cache/m` is created — a filesystem mutation in dry-run. -/
theorem debug_mode_creates_directory_counterexample :
    (move_media_files ⟨("/real").data, ("/cache").data, false, true⟩
        [("/real/m/a.mkv").data] (("cache").data) 2 2 [("/real/m/a.mkv").data]
        []).dirs = [("/cache/m").data] := by
  decide

/-- C2 amended: in debug mode no file is moved or deleted — the set of
regular files is unchanged, the error count is 0, and the computed commands
are exactly what is printed/recorded — but the destination-directory
creation of `_get_move_command` still runs, so directories can be created
even in dry-run. -/
theorem debug_mode_moves_no_file (mv : FileMover) (files : List Str)
    (destination : Str) (fs : FS) (dirs : List Str) (ma mc : Nat)
    (hdbg : mv.debug = true) :
    (move_media_files mv files destination ma mc fs dirs).fs = fs ∧
    (move_media_files mv files destination ma mc fs dirs).errors = 0 ∧
    (move_media_files mv files destination ma mc fs dirs).printed =
      (move_media_files mv files destination ma mc fs dirs).move_commands := by
  unfold move_media_files execute_move_commands
  simp [hdbg, moveLoop_fs]

/-- C2 amended, witness: a concrete debug-mode batch. -/
theorem debug_mode_moves_no_file_witness :
    (move_media_files ⟨("/real").data, ("/cache").data, false, true⟩
        [("/real/m/a.mkv").data] (("cache").data) 2 2 [("/real/m/a.mkv").data] []).fs =
      [("/real/m/a.mkv").data] ∧
    (move_media_files ⟨("/real").data, ("/cache").data, false, true⟩
        [("/real/m/a.mkv").data] (("cache").data) 2 2 [("/real/m/a.mkv").data]
        []).errors = 0 ∧
    (move_media_files ⟨("/real").data, ("/cache").data, false, true⟩
        [("/real/m/a.mkv").data] (("cache").data) 2 2 [("/real/m/a.mkv").data]
        []).printed =
      (move_media_files ⟨("/real").data, ("/cache").data, false, true⟩
        [("/real/m/a.mkv").data] (("cache").data) 2 2 [("/real/m/a.mkv").data]
        []).move_commands :=
  debug_mode_moves_no_file ⟨("/real").data, ("/cache").data, false, true⟩
    [("/real/m/a.mkv").data] (("cache").data) [("/real/m/a.mkv").data] [] 2 2 rfl

/-- Order-preserving removal of repeated entries against a seen-set: the
value the `processed_files` set computation of the loops denotes. -/
def pyUnique (seen : List Str) : List Str → List Str
  | [] => []
  | x :: xs => if x ∈ seen then pyUnique seen xs else x :: pyUnique (x :: seen) xs

theorem pyUnique_mem_not_seen :
    ∀ (xs seen : List Str) (y : Str), y ∈ pyUnique seen xs → y ∉ seen := by
  intro xs
  induction xs with
  | nil => intro seen y h; simp [pyUnique] at h
  | cons x rest ih =>
    intro seen y h
    unfold pyUnique at h
    split at h
    · exact ih seen y h
    · rcases List.mem_cons.mp h with h1 | h1
      · subst h1; assumption
      · intro hy
        exact ih (x :: seen) y h1 (List.mem_cons_of_mem x hy)

theorem pyUnique_nodup : ∀ (xs seen : List Str), (pyUnique seen xs).Nodup := by
  intro xs
  induction xs with
  | nil => intro seen; simp [pyUnique]
  | cons x rest ih =>
    intro seen
    unfold pyUnique
    split
    · exact ih seen
    · exact List.nodup_cons.mpr
        ⟨fun hmem => pyUnique_mem_not_seen rest (x :: seen) x hmem (List.mem_cons_self x seen),
          ih (x :: seen)⟩

/-- The command `_get_move_command` hands back for one file is the pure
per-file decision against the current set of regular files. -/
theorem get_move_command_fst (mv : FileMover) (st : MoverState) (destination f : Str) :
    (get_move_command mv st destination (get_paths mv f).2.2.1 (get_paths mv f).1
        (get_paths mv f).2.2.2 (get_paths mv f).2.1).1 =
      moveCommandOf mv st.fs destination f := by
  unfold get_move_command moveCommandOf
  split
  · rfl
  · split <;> rfl

/-- Closed form of the command-collection loop: the commands are the
per-file decisions over the input with repeats removed. -/
theorem moveLoop_eq_filterMap (mv : FileMover) (destination : Str) :
    ∀ (files processed : List Str) (st : MoverState),
      (moveLoop mv destination files processed st).1 =
        (pyUnique processed files).filterMap (moveCommandOf mv st.fs destination) := by
  intro files
  induction files with
  | nil => intro processed st; rfl
  | cons f rest ih =>
    intro processed st
    unfold moveLoop pyUnique
    split
    · exact ih processed st
    · simp only [List.filterMap_cons]
      have hfs := get_move_command_fs mv st destination (get_paths mv f).2.2.1
        (get_paths mv f).1 (get_paths mv f).2.2.2 (get_paths mv f).2.1
      have hrec := ih (f :: processed)
        (get_move_command mv st destination (get_paths mv f).2.2.1 (get_paths mv f).1
          (get_paths mv f).2.2.2 (get_paths mv f).2.1).2
      rw [hfs] at hrec
      rw [get_move_command_fst mv st destination f] at *
      cases hmc : moveCommandOf mv st.fs destination f <;> simp [hmc, hrec]

/-- C4, counterexample: destination `cache` with a file that exists on
neither tier.  `_get_move_command` only checks that the cache copy is
absent, so a move command is emitted whose source `/real/m/a.mkv` does not
exist. -/
theorem move_command_for_missing_source_counterexample :
    (move_media_files ⟨("/real").data, ("/cache").data, false, false⟩
        [("/real/m/a.mkv").data] (("cache").data) 2 2 [] []).move_commands =
      [((("/real/m/a.mkv").data : Str), (("/cache/m").data : Str))] ∧
    isfile [] (("/real/m/a.mkv").data) = false := by
  constructor <;> decide

/-- C4 amended: within one batch each physical path yields at most one move
command — the emitted list is the per-file decision mapped over the input
with repeats removed (and that deduplicated list has no duplicates) — and
for cache→array moves the source (the cache copy) is checked to exist; for
array→cache moves only the absence of the cache copy is checked, the
existence of the user-side source is not verified. -/
theorem move_commands_deduplicated_array_source_exists
    (mv : FileMover) (files : List Str) (destination : Str) (fs : FS)
    (dirs : List Str) (ma mc : Nat) :
    (move_media_files mv files destination ma mc fs dirs).move_commands =
      (pyUnique [] files).filterMap (moveCommandOf mv fs destination) ∧
    (pyUnique [] files).Nodup ∧
    (destination = ("array").data →
      ∀ cmd ∈ (move_media_files mv files destination ma mc fs dirs).move_commands,
        isfile fs cmd.1 = true) := by
  have hcmds : (move_media_files mv files destination ma mc fs dirs).move_commands =
      (pyUnique [] files).filterMap (moveCommandOf mv fs destination) := by
    unfold move_media_files
    simp only
    exact moveLoop_eq_filterMap mv destination files [] ⟨fs, dirs⟩
  refine ⟨hcmds, pyUnique_nodup files [], fun hdest cmd hmem => ?_⟩
  rw [hcmds] at hmem
  obtain ⟨f, _, hf⟩ := List.mem_filterMap.mp hmem
  subst hdest
  unfold moveCommandOf at hf
  simp only [if_pos rfl] at hf
  by_cases hex : isfile fs (get_paths mv f).2.2.1 = true
  · rw [if_pos hex] at hf
    obtain rfl : ((get_paths mv f).2.2.1, (get_paths mv f).1) = cmd :=
      Option.some.inj hf
    exact hex
  · rw [if_neg hex] at hf
    exact absurd hf (Option.some_ne_none cmd).symm

/-- C4 amended, witness: a concrete cache→array batch with a duplicate
input entry. -/
theorem move_commands_deduplicated_array_source_exists_witness :
    (move_media_files ⟨("/real").data, ("/cache").data, false, false⟩
        [("/real/m/a.mkv").data, ("/real/m/a.mkv").data] (("array").data) 2 2
        [("/cache/m/a.mkv").data] []).move_commands =
      (pyUnique [] [("/real/m/a.mkv").data, ("/real/m/a.mkv").data]).filterMap
        (moveCommandOf ⟨("/real").data, ("/cache").data, false, false⟩
          [("/cache/m/a.mkv").data] (("array").data)) ∧
    (pyUnique [] [("/real/m/a.mkv").data, ("/real/m/a.mkv").data]).Nodup ∧
    ((("array").data : Str) = ("array").data →
      ∀ cmd ∈ (move_media_files ⟨("/real").data, ("/cache").data, false, false⟩
          [("/real/m/a.mkv").data, ("/real/m/a.mkv").data] (("array").data) 2 2
          [("/cache/m/a.mkv").data] []).move_commands,
        isfile [("/cache/m/a.mkv").data] cmd.1 = true) :=
  move_commands_deduplicated_array_source_exists
    ⟨("/real").data, ("/cache").data, false, false⟩
    [("/real/m/a.mkv").data, ("/real/m/a.mkv").data] (("array").data)
    [("/cache/m/a.mkv").data] [] 2 2

/-- C9, counterexample: in unraid mode, with `/mnt/user/m/b.mkv` in the skip
set, the artifact is overwritten with the cache path of `a.mkv` only — the
skipped input file's cache path is missing, so the artifact does not hold
the cache-equivalent path of every input file; and on an empty input the
artifact is not written at all (the function returns before the write). -/
theorem exclusion_artifact_counterexample :
    (filter_files ⟨("/mnt/user").data, ("/mnt/cache").data, true⟩
        [("/mnt/user/m/a.mkv").data, ("/mnt/user/m/b.mkv").data] (("cache").data) []
        [("/mnt/user/m/b.mkv").data] []).exclude_artifact =
      some [("/mnt/cache/m/a.mkv").data] ∧
    (filter_files ⟨("/mnt/user").data, ("/mnt/cache").data, true⟩ [] (("cache").data)
        [] [] []).exclude_artifact = none := by
  constructor <;> decide

/-- Bool form of the skip test of the `filter_files` loop, Python
`files_to_skip and file in files_to_skip`. -/
def notSkipped (files_to_skip : List Str) (f : Str) : Bool :=
  !(decide (files_to_skip ≠ [] ∧ f ∈ files_to_skip))

/-- A skipped or repeated file leaves the `filter_files` loop state alone. -/
theorem filterStep_skip (c : FileFilter) (destination : Str)
    (media_to_cache files_to_skip : List Str) (st : FilterState) (f : Str)
    (h : f ∈ st.processed ∨ (files_to_skip ≠ [] ∧ f ∈ files_to_skip)) :
    filterStep c destination media_to_cache files_to_skip st f = st := by
  unfold filterStep
  rw [if_pos h]

/-- A retained file is marked processed and appends its cache path to the
exclusion list, whatever the destination branch does to the rest of the
state. -/
theorem filterStep_retained (c : FileFilter) (destination : Str)
    (media_to_cache files_to_skip : List Str) (st : FilterState) (f : Str)
    (h : ¬(f ∈ st.processed ∨ (files_to_skip ≠ [] ∧ f ∈ files_to_skip))) :
    (filterStep c destination media_to_cache files_to_skip st f).processed =
        f :: st.processed ∧
      (filterStep c destination media_to_cache files_to_skip st f).cache_files_to_exclude =
        st.cache_files_to_exclude ++ [(get_cache_paths c f).2] := by
  unfold filterStep
  rw [if_neg h]
  refine ⟨?_, ?_⟩ <;> (split <;> first | rfl | (split <;> rfl))

/-- Closed form of the exclusion lines accumulated by the `filter_files`
loop: the cache paths of the non-skipped input files with repeats removed
against the already-processed set. -/
theorem filterFoldl_exclude (c : FileFilter) (destination : Str)
    (media_to_cache files_to_skip : List Str) :
    ∀ (files : List Str) (st : FilterState),
      (List.foldl (filterStep c destination media_to_cache files_to_skip) st
            files).cache_files_to_exclude =
        st.cache_files_to_exclude ++
          (pyUnique st.processed (files.filter (notSkipped files_to_skip))).map
            (fun f => (get_cache_paths c f).2) := by
  intro files
  induction files with
  | nil => intro st; simp [pyUnique]
  | cons f rest ih =>
    intro st
    simp only [List.foldl_cons]
    by_cases hc : f ∈ st.processed ∨ (files_to_skip ≠ [] ∧ f ∈ files_to_skip)
    · rw [filterStep_skip c destination media_to_cache files_to_skip st f hc, ih st]
      rcases hc with hp | hs
      · by_cases hns : notSkipped files_to_skip f = true
        · simp [List.filter_cons, hns, pyUnique, hp]
        · simp [List.filter_cons, Bool.not_eq_true _ ▸ hns, hns]
      · have hns : notSkipped files_to_skip f = false := by
          simp [notSkipped, hs.1, hs.2]
        simp [List.filter_cons, hns]
    · obtain ⟨hp, he⟩ := filterStep_retained c destination media_to_cache files_to_skip st f hc
      rw [ih _, hp, he]
      push_neg at hc
      have hns : notSkipped files_to_skip f = true := by
        by_cases hn : files_to_skip = []
        · simp [notSkipped, hn]
        · simp [notSkipped, hn, hc.2 hn]
      have hfp : f ∉ st.processed := hc.1
      simp [List.filter_cons, hns, pyUnique, hfp, List.append_assoc]

/-- C9 amended: the mover-exclusion artifact is overwritten only in unraid
mode and only when the input list is nonempty (an empty input returns
before the write); its lines are the cache-equivalent paths of the
non-skipped input files, one per line in input order, with repeated input
paths written once. -/
theorem exclusion_artifact_characterization (c : FileFilter) (files : List Str)
    (destination : Str) (media_to_cache files_to_skip : List Str) (fs : FS) :
    (filter_files c files destination media_to_cache files_to_skip fs).exclude_artifact =
      if files = [] then none
      else if c.is_unraid then
        some ((pyUnique [] (files.filter (notSkipped files_to_skip))).map
          (fun f => (get_cache_paths c f).2))
      else none := by
  unfold filter_files
  split
  · simp [*]
  next hne =>
    have := filterFoldl_exclude c destination media_to_cache files_to_skip files
      ⟨[], [], [], fs⟩
    simp only at this
    by_cases hu : c.is_unraid <;> simp [hu, this]

/-- C5: if the batch's total size exceeds the destination's free space, the
batch does not proceed — outside debug mode the process exits
(`sys.exit`, no move is attempted), while in debug mode the condition is
only reported and execution continues to the mover, which in debug mode
moves nothing and counts no errors; a zero-size batch is the normal
`nothing to move` outcome. -/
theorem capacity_gate_policy (c : FileFilter) (mv : FileMover) (debug : Bool)
    (size : Str → Nat) (free_space_bytes : Nat) (media_files : List Str)
    (destination : Str) (media_to_cache files_to_skip : List Str)
    (ma mc : Nat) (fs : FS) (dirs : List Str) (res : FilterResult) (total : Nat)
    (hres : res = filter_files c media_files destination media_to_cache files_to_skip fs)
    (htotal : total = get_total_size_of_files res.fs size res.media_to) :
    (0 < total → free_space_bytes < total → debug = false →
      check_free_space_and_move_files c mv debug size free_space_bytes media_files
          destination media_to_cache files_to_skip ma mc fs dirs =
        BatchOutcome.exitNoSpace) ∧
    (0 < total → free_space_bytes < total → debug = true → mv.debug = true →
      check_free_space_and_move_files c mv debug size free_space_bytes media_files
          destination media_to_cache files_to_skip ma mc fs dirs =
        BatchOutcome.moved true
          (move_media_files mv res.media_to destination ma mc res.fs dirs) ∧
      (move_media_files mv res.media_to destination ma mc res.fs dirs).fs = res.fs ∧
      (move_media_files mv res.media_to destination ma mc res.fs dirs).errors = 0) ∧
    (total = 0 →
      check_free_space_and_move_files c mv debug size free_space_bytes media_files
          destination media_to_cache files_to_skip ma mc fs dirs =
        BatchOutcome.nothingToMove) := by
  subst hres
  refine ⟨fun h1 h2 h3 => ?_, fun h1 h2 h3 h4 => ?_, fun h0 => ?_⟩
  · subst h3
    simp only [check_free_space_and_move_files]
    rw [← htotal, if_pos h1, if_pos h2]
    rfl
  · subst h3
    have hmv : (move_media_files mv
          (filter_files c media_files destination media_to_cache files_to_skip fs).media_to
          destination ma mc
          (filter_files c media_files destination media_to_cache files_to_skip fs).fs
          dirs).fs =
          (filter_files c media_files destination media_to_cache files_to_skip fs).fs ∧
        (move_media_files mv
          (filter_files c media_files destination media_to_cache files_to_skip fs).media_to
          destination ma mc
          (filter_files c media_files destination media_to_cache files_to_skip fs).fs
          dirs).errors = 0 := by
      unfold move_media_files execute_move_commands
      simp [h4, moveLoop_fs]
    refine ⟨?_, hmv.1, hmv.2⟩
    simp only [check_free_space_and_move_files]
    rw [← htotal, if_pos h1, if_pos h2]
    rfl
  · simp only [check_free_space_and_move_files]
    rw [← htotal, h0]
    rfl

/-- C5, witness: with per-file size 5 and free space 3, a one-file
cache-bound batch exits before moving in normal mode; an empty batch is
`nothing to move`. -/
theorem capacity_gate_policy_witness :
    check_free_space_and_move_files ⟨("/real").data, ("/cache").data, false⟩
        ⟨("/real").data, ("/cache").data, false, false⟩ false (fun _ => 5) 3
        [("/real/m/a.mkv").data] (("cache").data) [] [] 2 2 [("/real/m/a.mkv").data]
        [] = BatchOutcome.exitNoSpace ∧
    check_free_space_and_move_files ⟨("/real").data, ("/cache").data, false⟩
        ⟨("/real").data, ("/cache").data, false, false⟩ false (fun _ => 5) 3
        [] (("cache").data) [] [] 2 2 [] [] = BatchOutcome.nothingToMove :=
  ⟨(capacity_gate_policy ⟨("/real").data, ("/cache").data, false⟩
      ⟨("/real").data, ("/cache").data, false, false⟩ false (fun _ => 5) 3
      [("/real/m/a.mkv").data] (("cache").data) [] [] 2 2 [("/real/m/a.mkv").data] []
      ⟨[("/real/m/a.mkv").data], [("/real/m/a.mkv").data], none⟩ 5
      (by decide) (by decide)).1 (by decide) (by decide) rfl,
    (capacity_gate_policy ⟨("/real").data, ("/cache").data, false⟩
      ⟨("/real").data, ("/cache").data, false, false⟩ false (fun _ => 5) 3
      [] (("cache").data) [] [] 2 2 [] [] ⟨[], [], none⟩ 0
      (by decide) (by decide)).2.2 rfl⟩

/-! ## Path algebra for the decision/move cache-path agreement (claim C10) -/

/-- A plain path component: nonempty, free of separators, and not one of the
special components `.` and `..`. -/
def cleanComp (comp : Str) : Prop :=
  comp ≠ [] ∧ ('/') ∉ comp ∧ comp ≠ (".").data ∧ comp ≠ ("..").data

instance : DecidablePred cleanComp := fun comp => by
  unfold cleanComp
  infer_instance

/-- Components joined with single slashes and no leading or trailing
slash. -/
def joinComps : List Str → Str
  | [] => []
  | [comp] => comp
  | comp :: rest => comp ++ '/' :: joinComps rest

theorem splitOnSlashAux_append_slash (a b : Str) :
    ∀ cur, splitOnSlashAux cur (a ++ '/' :: b) =
      splitOnSlashAux cur a ++ splitOnSlashAux [] b := by
  induction a with
  | nil => intro cur; simp [splitOnSlashAux]
  | cons x a ih =>
    intro cur
    by_cases hx : x = '/' <;> simp [splitOnSlashAux, hx, ih]

theorem splitOnSlashAux_no_slash (a : Str) (h : ('/') ∉ a) :
    ∀ cur, splitOnSlashAux cur a = [cur.reverse ++ a] := by
  induction a with
  | nil => intro cur; simp [splitOnSlashAux]
  | cons x a ih =>
    intro cur
    have hx : ¬x = '/' := fun hc => h (hc ▸ List.mem_cons_self x a)
    have ha : ('/') ∉ a := fun hc => h (List.mem_cons_of_mem x hc)
    simp [splitOnSlashAux, hx, ih ha]

theorem splitOnSlash_joinComps :
    ∀ comps : List Str, comps ≠ [] → (∀ x ∈ comps, ('/') ∉ x) →
      splitOnSlashAux [] (joinComps comps) = comps := by
  intro comps
  induction comps with
  | nil => intro h; exact absurd rfl h
  | cons c rest ih =>
    intro _ hns
    cases rest with
    | nil =>
      simpa [joinComps] using splitOnSlashAux_no_slash c (hns c (by simp)) []
    | cons c2 rest2 =>
      have h1 : joinComps (c :: c2 :: rest2) = c ++ '/' :: joinComps (c2 :: rest2) := rfl
      rw [h1, splitOnSlashAux_append_slash,
        splitOnSlashAux_no_slash c (hns c (by simp)) [],
        ih (by simp) (fun x hx => hns x (List.mem_cons_of_mem c hx))]
      simp

theorem normCompsAux_append :
    ∀ (xs : List Str) (acc ys : List Str),
      normCompsAux acc (xs ++ ys) = normCompsAux (normCompsAux acc xs).reverse ys := by
  intro xs
  induction xs with
  | nil => intro acc ys; simp [normCompsAux]
  | cons comp xs ih =>
    intro acc ys
    by_cases h1 : comp = [] ∨ comp = (".").data
    · simp [normCompsAux, h1, ih]
    · by_cases h2 : comp = ("..").data
      · cases acc with
        | nil => simp [normCompsAux, h1, h2, ih]
        | cons a acc' =>
          by_cases h3 : a = ("..").data <;> simp [normCompsAux, h1, h2, h3, ih]
      · simp [normCompsAux, h1, h2, ih]

theorem normCompsAux_clean :
    ∀ (ys : List Str) (acc : List Str), (∀ y ∈ ys, cleanComp y) →
      normCompsAux acc ys = acc.reverse ++ ys := by
  intro ys
  induction ys with
  | nil => intro acc _; simp [normCompsAux]
  | cons y ys ih =>
    intro acc hcl
    obtain ⟨hn, _, hd, hdd⟩ := hcl y (by simp)
    have h1 : ¬(y = [] ∨ y = (".").data) := by simp [hn, hd]
    simp [normCompsAux, h1, hdd, ih ((y :: acc)) (fun z hz => hcl z (List.mem_cons_of_mem y hz))]

theorem commonPrefixLen_self_append :
    ∀ (A B : List Str), commonPrefixLen A (A ++ B) = A.length := by
  intro A B
  induction A with
  | nil => cases B <;> rfl
  | cons a as ih => simp [commonPrefixLen, ih]

theorem findSub_self_append (pat x : Str) : findSub pat (pat ++ x) = some 0 := by
  cases h : pat ++ x with
  | nil =>
    obtain ⟨h1, h2⟩ := List.append_eq_nil.mp h
    subst h1
    simp [findSub, List.isPrefixOf]
  | cons ch t =>
    have hp : pat.isPrefixOf (ch :: t) = true :=
      List.isPrefixOf_iff_prefix.mpr (h ▸ List.prefix_append pat x)
    simp [findSub, hp]

theorem pyReplaceOne_prefix (pat x new : Str) :
    pyReplaceOne (pat ++ x) pat new = new ++ x := by
  unfold pyReplaceOne
  rw [findSub_self_append]
  simp [List.drop_left]

theorem rfindIdx_eq_none (c : Char) : ∀ s : Str, c ∉ s → rfindIdx c s = none := by
  intro s
  induction s with
  | nil => intro _; rfl
  | cons x s ih =>
    intro h
    have hx : ¬x = c := fun hc => h (hc ▸ List.mem_cons_self x s)
    have hs : c ∉ s := fun hc => h (List.mem_cons_of_mem x hc)
    simp [rfindIdx, ih hs, hx]

theorem rfindIdx_append_last (c : Char) (b : Str) (hb : c ∉ b) :
    ∀ q : Str, rfindIdx c (q ++ c :: b) = some q.length := by
  intro q
  induction q with
  | nil => simp [rfindIdx, rfindIdx_eq_none c b hb]
  | cons x q ih => simp [rfindIdx, ih]

theorem getLast?_ne_slash_of_no_slash (y : Str) (hns : ('/') ∉ y) :
    y.getLast? ≠ some '/' := by
  intro h
  exact hns (List.mem_of_mem_getLast? (by simp [h, Option.mem_def]))

theorem head?_ne_slash_of_no_slash (y : Str) (hns : ('/') ∉ y) :
    y.head? ≠ some '/' := by
  intro h
  exact hns (List.mem_of_mem_head? (by simp [h, Option.mem_def]))

theorem pyStartsWith_slash_false (y : Str) (h : y.head? ≠ some '/') :
    pyStartsWith y (("/").data) = false := by
  cases y with
  | nil => rfl
  | cons ch t =>
    have hch : ¬('/' = ch) := by
      intro hc
      exact h (by simp [hc.symm])
    simp [pyStartsWith, List.isPrefixOf, hch]

theorem pyEndsWith_slash_false (a : Str) (h : a.getLast? ≠ some '/') :
    pyEndsWith a (("/").data) = false := by
  have hd : (("/").data : Str) = ['/'] := rfl
  by_contra hne
  have htrue : pyEndsWith a (("/").data) = true := by
    cases hv : pyEndsWith a (("/").data)
    · exact absurd hv hne
    · rfl
  rw [pyEndsWith, List.isSuffixOf_iff_suffix] at htrue
  obtain ⟨t, ht⟩ := htrue
  rw [hd] at ht
  rw [← ht, List.getLast?_concat] at h
  exact h rfl

theorem joinPath_clean (a y : Str) (ha : a ≠ []) (hal : a.getLast? ≠ some '/')
    (hy : y.head? ≠ some '/') : joinPath a y = a ++ '/' :: y := by
  unfold joinPath
  rw [pyStartsWith_slash_false y hy, pyEndsWith_slash_false a hal]
  simp [ha]

theorem foldl_joinPath_clean :
    ∀ (comps : List Str) (a : Str), a ≠ [] → a.getLast? ≠ some '/' →
      (∀ y ∈ comps, y ≠ [] ∧ ('/') ∉ y) →
      comps.foldl joinPath a = a ++ (comps.map (fun y => '/' :: y)).flatten := by
  intro comps
  induction comps with
  | nil => intro a _ _ _; simp
  | cons y rest ih =>
    intro a ha hal hcl
    obtain ⟨hyn, hyns⟩ := hcl y (by simp)
    have hstep : joinPath a y = a ++ '/' :: y :=
      joinPath_clean a y ha hal (head?_ne_slash_of_no_slash y hyns)
    have ha' : a ++ '/' :: y ≠ [] := by simp
    have hal' : (a ++ '/' :: y).getLast? ≠ some '/' := by
      rw [List.getLast?_append_of_ne_nil a (by simp : ('/' :: y : Str) ≠ [])]
      have : ('/' :: y : Str) = ['/'] ++ y := rfl
      rw [this, List.getLast?_append_of_ne_nil ['/'] hyn]
      exact getLast?_ne_slash_of_no_slash y hyns
    rw [List.foldl_cons, hstep,
      ih (a ++ '/' :: y) ha' hal' (fun z hz => hcl z (List.mem_cons_of_mem y hz))]
    simp

theorem joinComps_eq_join :
    ∀ (xs : List Str) (x : Str),
      joinComps (x :: xs) = x ++ (xs.map (fun y => '/' :: y)).flatten := by
  intro xs
  induction xs with
  | nil => intro x; simp [joinComps]
  | cons y ys ih =>
    intro x
    have h1 : joinComps (x :: y :: ys) = x ++ '/' :: joinComps (y :: ys) := rfl
    rw [h1, ih y]
    simp

theorem joinList_clean (comps : List Str) (h0 : comps ≠ [])
    (hcl : ∀ y ∈ comps, y ≠ [] ∧ ('/') ∉ y) : joinList comps = joinComps comps := by
  cases comps with
  | nil => exact absurd rfl h0
  | cons x xs =>
    obtain ⟨hxn, hxns⟩ := hcl x (by simp)
    have hxl : x.getLast? ≠ some '/' := getLast?_ne_slash_of_no_slash x hxns
    rw [joinList, foldl_joinPath_clean xs x hxn hxl
      (fun z hz => hcl z (List.mem_cons_of_mem x hz)), joinComps_eq_join]

theorem joinComps_ne_nil (comps : List Str) (h0 : comps ≠ [])
    (hcl : ∀ y ∈ comps, y ≠ [] ∧ ('/') ∉ y) : joinComps comps ≠ [] := by
  cases comps with
  | nil => exact absurd rfl h0
  | cons x xs =>
    rw [joinComps_eq_join]
    obtain ⟨hxn, _⟩ := hcl x (by simp)
    simp [hxn]

theorem joinComps_head_ne_slash (comps : List Str) (h0 : comps ≠ [])
    (hcl : ∀ y ∈ comps, y ≠ [] ∧ ('/') ∉ y) :
    (joinComps comps).head? ≠ some '/' := by
  cases comps with
  | nil => exact absurd rfl h0
  | cons x xs =>
    obtain ⟨hxn, hxns⟩ := hcl x (by simp)
    rw [joinComps_eq_join, List.head?_append_of_ne_nil x hxn]
    exact head?_ne_slash_of_no_slash x hxns

theorem joinComps_getLast_ne_slash :
    ∀ comps : List Str, comps ≠ [] → (∀ y ∈ comps, y ≠ [] ∧ ('/') ∉ y) →
      (joinComps comps).getLast? ≠ some '/' := by
  intro comps
  induction comps with
  | nil => intro h; exact absurd rfl h
  | cons x xs ih =>
    intro _ hcl
    obtain ⟨hxn, hxns⟩ := hcl x (by simp)
    cases xs with
    | nil => exact getLast?_ne_slash_of_no_slash x hxns
    | cons y ys =>
      have h1 : joinComps (x :: y :: ys) = x ++ '/' :: joinComps (y :: ys) := rfl
      have hrest : ∀ z ∈ y :: ys, z ≠ [] ∧ ('/') ∉ z :=
        fun z hz => hcl z (List.mem_cons_of_mem x hz)
      have hjn : joinComps (y :: ys) ≠ [] := joinComps_ne_nil (y :: ys) (by simp) hrest
      rw [h1, List.getLast?_append_of_ne_nil x (by simp : ('/' :: joinComps (y :: ys) : Str) ≠ [])]
      have h2 : ('/' :: joinComps (y :: ys) : Str) = ['/'] ++ joinComps (y :: ys) := rfl
      rw [h2, List.getLast?_append_of_ne_nil ['/'] hjn]
      exact ih (by simp) hrest

theorem dirname_concat (q b : Str) (hb : ('/') ∉ b)
    (hq1 : ∃ ch ∈ q, ch ≠ '/') (hq2 : q.getLast? ≠ some '/') :
    dirname (q ++ '/' :: b) = q := by
  unfold dirname
  rw [rfindIdx_append_last '/' b hb q]
  have htake : (q ++ '/' :: b).take (q.length + 1) = q ++ ['/'] := by
    rw [List.take_append_eq_append_take, List.take_of_length_le (by omega)]
    have h1 : q.length + 1 - q.length = 1 := by omega
    rw [h1]
    rfl
  have hall : (q ++ ['/']).all (fun ch => ch = '/') = false := by
    rw [List.all_eq_false]
    obtain ⟨ch, hch, hne⟩ := hq1
    exact ⟨ch, List.mem_append_left _ hch, by simp [hne]⟩
  simp only [htake, hall, Bool.false_eq_true, if_false]
  unfold rstripSlash
  have hrev : (q ++ ['/']).reverse = '/' :: q.reverse := by simp
  rw [hrev, List.dropWhile_cons, if_pos (by simp)]
  have hdrop : List.dropWhile (fun ch => ch = '/') q.reverse = q.reverse := by
    cases hq : q.reverse with
    | nil => rfl
    | cons ch t =>
      have : q.getLast? = some ch := by
        rw [← List.head?_reverse, hq]
        rfl
      have hne : ¬(ch = '/') := by
        intro hc
        exact hq2 (by rw [this, hc])
      rw [List.dropWhile_cons, if_neg (by simp [hne])]
  rw [hdrop, List.reverse_reverse]

theorem basename_concat (q b : Str) (hb : ('/') ∉ b) :
    basename (q ++ '/' :: b) = b := by
  unfold basename
  rw [rfindIdx_append_last '/' b hb q]
  show List.drop (q.length + 1) (q ++ '/' :: b) = b
  have h1 : q ++ '/' :: b = (q ++ ['/']) ++ b := by simp
  have h2 : q.length + 1 = (q ++ ['/']).length := by simp
  rw [h1, h2, List.drop_left]

theorem absComps_append_clean (rs sub : Str) (subComps : List Str)
    (hsub : sub = joinComps subComps) (h0 : subComps ≠ [])
    (hcl : ∀ comp ∈ subComps, cleanComp comp) :
    absComps (rs ++ '/' :: sub) = absComps rs ++ subComps := by
  have hns : ∀ x ∈ subComps, ('/') ∉ x := fun x hx => (hcl x hx).2.1
  unfold absComps
  rw [splitOnSlashAux_append_slash, hsub, splitOnSlash_joinComps subComps h0 hns,
    normCompsAux_append, normCompsAux_clean subComps _ hcl, List.reverse_reverse]

theorem relpath_concat (rs sub : Str) (subComps : List Str)
    (hsub : sub = joinComps subComps) (h0 : subComps ≠ [])
    (hcl : ∀ comp ∈ subComps, cleanComp comp) :
    relpath (rs ++ '/' :: sub) rs = sub := by
  have hcl' : ∀ y ∈ subComps, y ≠ [] ∧ ('/') ∉ y :=
    fun y hy => ⟨(hcl y hy).1, (hcl y hy).2.1⟩
  simp only [relpath]
  rw [absComps_append_clean rs sub subComps hsub h0 hcl,
    commonPrefixLen_self_append, Nat.sub_self, List.replicate_zero, List.nil_append,
    List.drop_left]
  rw [if_neg (by simp [h0])]
  rw [joinList_clean subComps h0 hcl', hsub]

/-- C10, counterexample: for the file `/real/a.mkv` lying directly in the
real source root, `FileFilter._get_cache_paths` computes
`/cache/a.mkv` while `FileMover._get_paths` computes `/cache/./a.mkv`
(via `relpath = "."`); the two strings differ, so the claimed equality
fails for depth-one files. -/
theorem cache_path_agreement_counterexample :
    (get_cache_paths ⟨("/real").data, ("/cache").data, false⟩
        (("/real/a.mkv").data)).2 = ("/cache/a.mkv").data ∧
    (get_paths ⟨("/real").data, ("/cache").data, false, false⟩
        (("/real/a.mkv").data)).2.2.1 = ("/cache/./a.mkv").data ∧
    (get_cache_paths ⟨("/real").data, ("/cache").data, false⟩
        (("/real/a.mkv").data)).2 ≠
      (get_paths ⟨("/real").data, ("/cache").data, false, false⟩
        (("/real/a.mkv").data)).2.2.1 := by
  refine ⟨by decide, by decide, by decide⟩

/-- C10 amended: for every file in a proper subdirectory of `real_source`
(written `real_source / sub-components / base` with plain components), the
cache file name computed by `FileFilter._get_cache_paths` (prefix
substitution on the dirname) and the one computed by `FileMover._get_paths`
(join of `cache_dir` with the relative path) are the same string, so the
decision and move stages agree there; for files directly in the
`real_source` root the two strings differ by a `/.` segment. -/
theorem cache_path_agreement_in_subdirectory (c : FileFilter) (mv : FileMover)
    (subComps : List Str) (b : Str)
    (hrs : mv.real_source = c.real_source) (hcd : mv.cache_dir = c.cache_dir)
    (hsub0 : subComps ≠ []) (hsub : ∀ comp ∈ subComps, cleanComp comp)
    (hb0 : b ≠ []) (hb : ('/') ∉ b)
    (hcd0 : c.cache_dir ≠ []) (hcdl : c.cache_dir.getLast? ≠ some '/') :
    (get_cache_paths c ((c.real_source ++ '/' :: joinComps subComps) ++ '/' :: b)).2 =
      (get_paths mv ((c.real_source ++ '/' :: joinComps subComps) ++ '/' :: b)).2.2.1 := by
  have hcl' : ∀ y ∈ subComps, y ≠ [] ∧ ('/') ∉ y :=
    fun y hy => ⟨(hsub y hy).1, (hsub y hy).2.1⟩
  have hjc_ne : joinComps subComps ≠ [] := joinComps_ne_nil subComps hsub0 hcl'
  have hjc_head : (joinComps subComps).head? ≠ some '/' :=
    joinComps_head_ne_slash subComps hsub0 hcl'
  have hjc_last : (joinComps subComps).getLast? ≠ some '/' :=
    joinComps_getLast_ne_slash subComps hsub0 hcl'
  have hq_last : (c.real_source ++ '/' :: joinComps subComps).getLast? ≠ some '/' := by
    rw [List.getLast?_append_of_ne_nil c.real_source
      (by simp : ('/' :: joinComps subComps : Str) ≠ [])]
    have h2 : ('/' :: joinComps subComps : Str) = ['/'] ++ joinComps subComps := rfl
    rw [h2, List.getLast?_append_of_ne_nil ['/'] hjc_ne]
    exact hjc_last
  have hq_ex : ∃ ch ∈ c.real_source ++ '/' :: joinComps subComps, ch ≠ '/' := by
    obtain ⟨ch, hch⟩ : ∃ ch, (joinComps subComps).head? = some ch := by
      cases hjcv : joinComps subComps with
      | nil => exact absurd hjcv hjc_ne
      | cons ch t => exact ⟨ch, rfl⟩
    refine ⟨ch, ?_, fun hc => hjc_head (by rw [hch, hc])⟩
    exact List.mem_append_right _
      (List.mem_cons_of_mem '/' (List.mem_of_mem_head? (by simp [hch, Option.mem_def])))
  have hdir : dirname ((c.real_source ++ '/' :: joinComps subComps) ++ '/' :: b) =
      c.real_source ++ '/' :: joinComps subComps :=
    dirname_concat _ b hb hq_ex hq_last
  have hbase : basename ((c.real_source ++ '/' :: joinComps subComps) ++ '/' :: b) = b :=
    basename_concat _ b hb
  have hrel : relpath (c.real_source ++ '/' :: joinComps subComps) c.real_source =
      joinComps subComps :=
    relpath_concat c.real_source (joinComps subComps) subComps rfl hsub0 hsub
  have hrep : pyReplaceOne (c.real_source ++ '/' :: joinComps subComps) c.real_source
      c.cache_dir = c.cache_dir ++ '/' :: joinComps subComps :=
    pyReplaceOne_prefix c.real_source ('/' :: joinComps subComps) c.cache_dir
  have hjoin1 : joinPath c.cache_dir (joinComps subComps) =
      c.cache_dir ++ '/' :: joinComps subComps :=
    joinPath_clean c.cache_dir (joinComps subComps) hcd0 hcdl hjc_head
  simp only [get_cache_paths, get_paths, hdir, hbase, hrs, hcd, hrel, hrep, hjoin1]

/-- C10 amended, witness: the file `/real/m/a.mkv` in the subdirectory `m`
of `/real`; both stages compute `/cache/m/a.mkv`. -/
theorem cache_path_agreement_in_subdirectory_witness :
    (get_cache_paths ⟨("/real").data, ("/cache").data, false⟩
        (((("/real").data : Str) ++ '/' :: joinComps [("m").data]) ++ '/' ::
          ("a.mkv").data)).2 =
      (get_paths ⟨("/real").data, ("/cache").data, false, false⟩
        (((("/real").data : Str) ++ '/' :: joinComps [("m").data]) ++ '/' ::
          ("a.mkv").data)).2.2.1 :=
  cache_path_agreement_in_subdirectory
    ⟨("/real").data, ("/cache").data, false⟩
    ⟨("/real").data, ("/cache").data, false, false⟩
    [("m").data] (("a.mkv").data) rfl rfl (by decide) (by decide) (by decide)
    (by decide) (by decide) (by decide)

end PlexCache
